import Mathlib

/-!
Shallow embedding of the data-cleaning core of `src/dataclean.py`.

The program keeps one pandas DataFrame in `st.session_state.data` and applies
cleaning operations to it.  A DataFrame is embedded as a `Table`: a list of
column names, a parallel list of column kinds (numeric dtype vs object/text
dtype; booleans are coerced to text at load time, lines 17-18 of the source),
and a row-major list of rows whose cells are either the distinguished null
marker `NaN` (`Cell.missing`), a rational number, or a string.
-/

namespace DataClean

/-- A cell of the table: pandas `NaN` (missing), a number, or a string. -/
inductive Cell where
  | missing : Cell
  | num : ℚ → Cell
  | str : String → Cell
deriving DecidableEq

/-- The dtype of a column as the program sees it: `np.number` columns versus
`object` (text) columns; booleans were already coerced to text at load. -/
inductive ColKind where
  | numeric : ColKind
  | text : ColKind
deriving DecidableEq

/-- A DataFrame: named, typed columns of uniform length, stored row-major. -/
structure Table where
  names : List String
  kinds : List ColKind
  rows : List (List Cell)
deriving DecidableEq

/-- Well-formedness: the kind list is parallel to the name list and every
row has one cell per column. -/
def Table.wf (t : Table) : Prop :=
  t.kinds.length = t.names.length ∧ ∀ r ∈ t.rows, r.length = t.names.length

instance (t : Table) : Decidable t.wf := by
  unfold Table.wf
  infer_instance

/-- Cells of column `j`, as `data[col]` reads them (row order). -/
def colCells (t : Table) (j : ℕ) : List Cell :=
  t.rows.map (fun r => r.getD j Cell.missing)

/-- `data[col].isnull().sum()`: number of missing cells of column `j`. -/
def missingCount (t : Table) (j : ℕ) : ℕ :=
  (colCells t j).count Cell.missing

/-- The numeric values present in a column (pandas aggregations skip `NaN`). -/
def numVals (cs : List Cell) : List ℚ :=
  cs.filterMap (fun c =>
    match c with
    | Cell.num q => some q
    | _ => none)

/-- Arithmetic mean of a list of rationals. -/
def meanQ (vs : List ℚ) : ℚ := vs.sum / (vs.length : ℚ)

/-- `data[col].mean()` (skipna): `none` when every cell is missing, in which
case pandas yields `NaN`. -/
def colMean (cs : List Cell) : Option ℚ :=
  if numVals cs = [] then none else some (meanQ (numVals cs))

/-- Round to the nearest integer, ties to even (numpy `round` semantics). -/
def roundHalfEven (q : ℚ) : ℤ :=
  if Int.fract q < 1 / 2 then ⌊q⌋
  else if 1 / 2 < Int.fract q then ⌊q⌋ + 1
  else if ⌊q⌋ % 2 = 0 then ⌊q⌋ else ⌊q⌋ + 1

/-- `.round(2)`: round to two decimal places. -/
def round2 (q : ℚ) : ℚ := (roundHalfEven (q * 100) : ℚ) / 100

/-- One line of the missing-values table the program displays
(lines 55-61 of the source). -/
structure ReportEntry where
  column : String
  count : ℕ
  pct : ℚ
deriving DecidableEq

/-- Lines 55-61: per-column missing count and percentage
`(count / len(data) * 100).round(2)`, keeping only columns whose missing
count is positive (`missing_data[missing_data[...] > 0]`). -/
def computeMissingReport (t : Table) : List ReportEntry :=
  (List.range t.names.length).filterMap (fun j =>
    if 0 < missingCount t j then
      some { column := t.names.getD j ""
             count := missingCount t j
             pct := round2 ((missingCount t j : ℚ) / (t.rows.length : ℚ) * 100) }
    else none)

/-- Lines 69-70: `[col for col in data.columns if data[col].isnull().all()]`. -/
def computeAllMissingColumns (t : Table) : List String :=
  (List.range t.names.length).filterMap (fun j =>
    if ∀ c ∈ colCells t j, c = Cell.missing then some (t.names.getD j "")
    else none)

/-- `data.dropna()`: keep only the rows with no missing cell (line 91). -/
def dropna (t : Table) : Table :=
  { t with rows := t.rows.filter (fun r => decide (Cell.missing ∉ r)) }

/-- Outcome reported by the delete-rows button handler. -/
inductive DropRowsOutcome where
  | emptiedError : DropRowsOutcome
  | ok : ℕ → DropRowsOutcome
deriving DecidableEq

/-- Lines 89-99: the delete-rows-with-missing-values button handler.  It
assigns `st.session_state.data = st.session_state.data.dropna()` FIRST and
only afterwards tests `len(st.session_state.data) == 0`, displaying the
would-empty error in that case; the returned pair is (table now held in
session state, outcome signalled to the user). -/
def deleteRowsButton (t : Table) : Table × DropRowsOutcome :=
  let next := dropna t
  if next.rows.length = 0 then (next, DropRowsOutcome.emptiedError)
  else (next, DropRowsOutcome.ok (t.rows.length - next.rows.length))

/-- One cell of the fill operation: `NaN` in an object column becomes
`"Unknown"`; `NaN` in a numeric column becomes that column's mean when the
mean exists, and stays `NaN` when the column mean is itself `NaN`
(pandas `fillna` ignores a `NaN` fill value); other cells are unchanged. -/
def fillCell (kinds : List ColKind) (means : List (Option ℚ)) (j : ℕ)
    (c : Cell) : Cell :=
  match c with
  | Cell.missing =>
    match kinds.getD j ColKind.text with
    | ColKind.text => Cell.str "Unknown"
    | ColKind.numeric =>
      match means.getD j none with
      | some q => Cell.num q
      | none => Cell.missing
  | c => c

/-- Fill every cell of one row, dispatching on its column's dtype. -/
def fillRow (kinds : List ColKind) (means : List (Option ℚ))
    (r : List Cell) : List Cell :=
  (List.range r.length).map (fun j => fillCell kinds means j (r.getD j Cell.missing))

/-- The column means the fill button computes once, from the pre-fill data. -/
def colMeans (t : Table) : List (Option ℚ) :=
  (List.range t.names.length).map (fun j => colMean (colCells t j))

/-- Lines 102-110: the fill-missing-values button.
`data[numeric_cols] = data[numeric_cols].fillna(data[numeric_cols].mean())`
and `data[text_cols] = data[text_cols].fillna('Unknown')`. -/
def fillMissing (t : Table) : Table :=
  { t with rows := t.rows.map (fillRow t.kinds (colMeans t)) }

/-- `duplicated()` flags, threaded with the set of row values already seen:
row `i` is flagged iff it equals some earlier row. -/
def dupFlags (seen : List (List Cell)) : List (List Cell) → List Bool
  | [] => []
  | r :: rs => decide (r ∈ seen) :: dupFlags (r :: seen) rs

/-- Line 117: `duplicate_count = data.duplicated().sum()`. -/
def duplicateCount (t : Table) : ℕ :=
  (dupFlags [] t.rows).count true

/-- Line 126: `data[data.duplicated(keep=False)]` — every row whose value
occurs at least twice, in original order. -/
def duplicatesPreview (t : Table) : List (List Cell) :=
  t.rows.filter (fun r => decide (2 ≤ t.rows.count r))

/-- First-occurrence deduplication threaded with the rows already kept. -/
def dropDupFirst (seen : List (List Cell)) : List (List Cell) → List (List Cell)
  | [] => []
  | r :: rs =>
    if r ∈ seen then dropDupFirst seen rs
    else r :: dropDupFirst (r :: seen) rs

/-- Line 132: `data.drop_duplicates(keep='first')`. -/
def dropDuplicateRows (t : Table) : Table :=
  { t with rows := dropDupFirst [] t.rows }

/-- Lines 46-47: `if 'data' not in st.session_state:
st.session_state.data = data.copy()` — the session slot is seeded only when
it is still empty. -/
def initializeSession (t : Table) (s : Option Table) : Option Table :=
  match s with
  | none => some t
  | some d => some d

/-- A one-row table whose single (numeric) cell is missing. -/
def T1 : Table :=
  { names := ["a"], kinds := [ColKind.numeric], rows := [[Cell.missing]] }

/-- A table with a numeric column in which every cell is missing. -/
def T2 : Table :=
  { names := ["a"], kinds := [ColKind.numeric], rows := [[Cell.missing]] }

/-- A zero-row table with one column. -/
def T3 : Table :=
  { names := ["a"], kinds := [ColKind.numeric], rows := [] }

/-- The scenario table of the spec: 3 rows, A numeric with values 1, missing,
3 and B text with values x, x, y. -/
def T5 : Table :=
  { names := ["A", "B"], kinds := [ColKind.numeric, ColKind.text],
    rows := [[Cell.num 1, Cell.str "x"],
             [Cell.missing, Cell.str "x"],
             [Cell.num 3, Cell.str "y"]] }

/-- The duplicate scenario table: rows [1, x], [1, x], [2, y]. -/
def T6 : Table :=
  { names := ["c1", "c2"], kinds := [ColKind.numeric, ColKind.text],
    rows := [[Cell.num 1, Cell.str "x"],
             [Cell.num 1, Cell.str "x"],
             [Cell.num 2, Cell.str "y"]] }

lemma fillRow_length (kinds : List ColKind) (means : List (Option ℚ))
    (r : List Cell) : (fillRow kinds means r).length = r.length := by
  simp [fillRow]

lemma fillRow_getD (kinds : List ColKind) (means : List (Option ℚ))
    (r : List Cell) (j : ℕ) (d : Cell) (hj : j < r.length) :
    (fillRow kinds means r).getD j d = fillCell kinds means j (r.getD j Cell.missing) := by
  rw [List.getD_eq_getElem?_getD, fillRow, List.getElem?_map, List.getElem?_range hj]
  rfl

lemma colMeans_getD (t : Table) (j : ℕ) (hj : j < t.names.length) :
    (colMeans t).getD j none = colMean (colCells t j) := by
  rw [List.getD_eq_getElem?_getD, colMeans, List.getElem?_map, List.getElem?_range hj]
  rfl

lemma fillCell_of_ne_missing (kinds : List ColKind) (means : List (Option ℚ))
    (j : ℕ) (c : Cell) (hc : c ≠ Cell.missing) : fillCell kinds means j c = c := by
  cases c with
  | missing => exact absurd rfl hc
  | num q => rfl
  | str s => rfl

lemma fillMissing_rows_getD (t : Table) (i : ℕ) :
    (fillMissing t).rows.getD i [] = fillRow t.kinds (colMeans t) (t.rows.getD i []) := by
  show (t.rows.map (fillRow t.kinds (colMeans t))).getD i [] = _
  rcases lt_or_ge i t.rows.length with hi | hi
  · rw [List.getD_eq_getElem?_getD, List.getElem?_map, List.getElem?_eq_getElem hi,
      List.getD_eq_getElem?_getD, List.getElem?_eq_getElem hi]
    rfl
  · rw [List.getD_eq_getElem?_getD, List.getElem?_map,
      List.getElem?_eq_none (by simpa using hi),
      List.getD_eq_getElem?_getD, List.getElem?_eq_none (by simpa using hi)]
    rfl

lemma range_map_getD {α : Type} (l : List α) (d : α) :
    (List.range l.length).map (fun j => l.getD j d) = l := by
  induction l with
  | nil => rfl
  | cons a t ih =>
    rw [List.length_cons, List.range_succ_eq_map, List.map_cons, List.map_map]
    simpa [Function.comp_def, Nat.succ_eq_add_one, List.getD_eq_getElem?_getD,
      List.getElem?_cons_succ, List.getElem?_cons_zero] using ih

/-- C1: the claim says a table whose every row has a missing cell makes the
delete-rows operation signal the would-empty error AND leave the held
Session Table unchanged (the empty result never committed).  The code
(lines 89-99) does signal the error, but it has already assigned the empty
`dropna()` result to `st.session_state.data` on line 91, before the check on
line 94: the empty table IS committed and the one-row input is lost, while
the displayed message claims the operation was rejected.  This theorem
evaluates the handler at the failing input. -/
theorem deleteRowsButton_commits_empty :
    (deleteRowsButton T1).2 = DropRowsOutcome.emptiedError ∧
    (deleteRowsButton T1).1.rows = [] ∧
    T1.rows.length = 1 := by
  refine ⟨rfl, rfl, rfl⟩

/-- C2 counterexample: for the table `T2`, whose single numeric column has
every cell missing, the fill operation neither fills the column with 0 nor
leaves it untouched with a signalled warning: the code (lines 102-113) has no
warning channel at all (it even displays an unconditional success message on
line 112) and the missing cell silently survives into the output, so the
claim as stated is false at `T2`. -/
theorem fillMissing_no_warning_on_all_missing :
    fillMissing T2 = T2 ∧ T2.rows = [[Cell.missing]] := by
  refine ⟨by decide, rfl⟩

/-- C2 (amended): when a Numeric column has zero non-missing values, the
fill operation leaves that column completely untouched — the undefined mean
becomes a missing fill value, which pandas `fillna` ignores, so every cell
(in particular every missing cell) keeps its value; no warning of any kind
is signalled (the operation returns only the table). -/
theorem fillMissing_all_missing_numeric_untouched (t : Table) (j : ℕ)
    (hwf : t.wf) (hj : j < t.names.length)
    (hkind : t.kinds.getD j ColKind.text = ColKind.numeric)
    (hempty : numVals (colCells t j) = []) :
    colCells (fillMissing t) j = colCells t j := by
  have hmean : (colMeans t).getD j none = none := by
    rw [colMeans_getD t j hj, colMean, if_pos hempty]
  show ((t.rows.map (fillRow t.kinds (colMeans t))).map (fun r => r.getD j Cell.missing))
      = t.rows.map (fun r => r.getD j Cell.missing)
  rw [List.map_map]
  apply List.map_congr_left
  intro r hr
  have hlen : r.length = t.names.length := hwf.2 r hr
  have hjr : j < r.length := hlen ▸ hj
  show (fillRow t.kinds (colMeans t) r).getD j Cell.missing = r.getD j Cell.missing
  rw [fillRow_getD _ _ _ _ _ hjr]
  by_cases hc : r.getD j Cell.missing = Cell.missing
  · rw [hc]
    show fillCell t.kinds (colMeans t) j Cell.missing = Cell.missing
    rw [fillCell, hkind, hmean]
  · exact fillCell_of_ne_missing _ _ _ _ hc

/-- C2 witness: the amended statement applied to the concrete table `T2`
(one numeric column, every cell missing). -/
theorem fillMissing_all_missing_numeric_untouched_instance :
    colCells (fillMissing T2) 0 = colCells T2 0 :=
  fillMissing_all_missing_numeric_untouched T2 0 (by decide) (by decide)
    (by decide) (by decide)

/-- C5: when every Numeric column still has at least one non-missing value,
the fill operation maps every missing cell of a Numeric column to the mean
of the non-missing values of that column, every missing cell of a Text
column to the literal string Unknown, and leaves every other cell
unchanged. -/
theorem fillMissing_mean_and_unknown (t : Table) (hwf : t.wf)
    (hnum : ∀ j, j < t.names.length →
      t.kinds.getD j ColKind.text = ColKind.numeric → numVals (colCells t j) ≠ [])
    (i j : ℕ) (hi : i < t.rows.length) (hj : j < t.names.length) :
    ((fillMissing t).rows.getD i []).getD j Cell.missing =
      if (t.rows.getD i []).getD j Cell.missing = Cell.missing then
        (match t.kinds.getD j ColKind.text with
          | ColKind.numeric => Cell.num (meanQ (numVals (colCells t j)))
          | ColKind.text => Cell.str "Unknown")
      else (t.rows.getD i []).getD j Cell.missing := by
  have hrmem : t.rows.getD i [] ∈ t.rows := by
    rw [List.getD_eq_getElem?_getD, List.getElem?_eq_getElem hi]
    exact List.getElem_mem hi
  have hjr : j < (t.rows.getD i []).length := by
    rw [hwf.2 _ hrmem]
    exact hj
  rw [fillMissing_rows_getD, fillRow_getD _ _ _ _ _ hjr]
  by_cases hc : (t.rows.getD i []).getD j Cell.missing = Cell.missing
  · rw [if_pos hc, hc]
    show fillCell t.kinds (colMeans t) j Cell.missing = _
    rw [fillCell]
    cases hk : t.kinds.getD j ColKind.text with
    | numeric =>
      rw [colMeans_getD t j hj, colMean, if_neg (hnum j hj hk)]
    | text => rfl
  · rw [if_neg hc, fillCell_of_ne_missing _ _ _ _ hc]

/-- C5 witness: the scenario of the spec — in `T5` the missing cell of the
numeric column A is filled with 2, the mean of 1 and 3. -/
theorem fillMissing_mean_and_unknown_scenario :
    ((fillMissing T5).rows.getD 1 []).getD 0 Cell.missing = Cell.num 2 := by
  have h := fillMissing_mean_and_unknown T5 (by decide) (by decide) 1 0
    (by decide) (by decide)
  rw [h]
  show Cell.num (meanQ (numVals (colCells T5 0))) = Cell.num 2
  norm_num [meanQ, numVals, colCells, T5, List.filterMap_cons, List.filterMap_nil]

/-- C9: session-state initialization is effective only once — initializing
an already-initialized slot is a no-op that keeps the held table (whatever
cleaning results it holds), and initializing an empty slot stores the
given table. -/
theorem initializeSession_once :
    (∀ (t t0 : Table) (s : Option Table),
      initializeSession t0 (initializeSession t s) = initializeSession t s) ∧
    (∀ (t0 d : Table), initializeSession t0 (some d) = some d) ∧
    (∀ t : Table, initializeSession t none = some t) := by
  refine ⟨?_, fun t0 d => rfl, fun t => rfl⟩
  intro t t0 s
  cases s <;> rfl

/-- C10: the fill operation changes only cells that were missing — the
column names, the column kinds, the row count and every row length are
unchanged, and every non-missing cell keeps its exact value. -/
theorem fillMissing_frame (t : Table) :
    (fillMissing t).names = t.names ∧
    (fillMissing t).kinds = t.kinds ∧
    (fillMissing t).rows.length = t.rows.length ∧
    (∀ i, ((fillMissing t).rows.getD i []).length = (t.rows.getD i []).length) ∧
    (∀ i j, (t.rows.getD i []).getD j Cell.missing ≠ Cell.missing →
      ((fillMissing t).rows.getD i []).getD j Cell.missing =
        (t.rows.getD i []).getD j Cell.missing) := by
  refine ⟨rfl, rfl, by simp [fillMissing], ?_, ?_⟩
  · intro i
    rw [fillMissing_rows_getD, fillRow_length]
  · intro i j h
    rw [fillMissing_rows_getD]
    rcases lt_or_ge j (t.rows.getD i []).length with hj | hj
    · rw [fillRow_getD _ _ _ _ _ hj]
      exact fillCell_of_ne_missing _ _ _ _ h
    · exact absurd (List.getD_eq_default _ _ (by simpa using hj)) h

/-- C10 witness: the frame condition applied to the concrete table `T5` at
the non-missing cell in row 0, column 0. -/
theorem fillMissing_frame_instance :
    ((fillMissing T5).rows.getD 0 []).getD 0 Cell.missing =
      (T5.rows.getD 0 []).getD 0 Cell.missing :=
  (fillMissing_frame T5).2.2.2.2 0 0 (by decide)

/-- C3 (amended): a column name is in the all-missing list iff some column
carries that name and every cell of that column is missing; in particular,
for a zero-row table the condition holds vacuously for every column, so the
whole name list is returned (not the empty set the claim asks for). -/
theorem computeAllMissingColumns_mem (t : Table) :
    (∀ c, c ∈ computeAllMissingColumns t ↔
      ∃ j, j < t.names.length ∧ t.names.getD j "" = c ∧
        ∀ x ∈ colCells t j, x = Cell.missing) ∧
    (t.rows = [] → computeAllMissingColumns t = t.names) := by
  constructor
  · intro c
    rw [computeAllMissingColumns, List.mem_filterMap]
    constructor
    · rintro ⟨j, hj, hf⟩
      rw [List.mem_range] at hj
      by_cases hall : ∀ x ∈ colCells t j, x = Cell.missing
      · rw [if_pos hall] at hf
        exact ⟨j, hj, Option.some.inj hf, hall⟩
      · rw [if_neg hall] at hf
        cases hf
    · rintro ⟨j, hj, hc, hall⟩
      exact ⟨j, List.mem_range.2 hj, by rw [if_pos hall, hc]⟩
  · intro hrows
    have hcells : ∀ j, colCells t j = [] := by
      intro j
      simp [colCells, hrows]
    have hcongr : (List.range t.names.length).filterMap (fun j =>
        if ∀ c ∈ colCells t j, c = Cell.missing then some (t.names.getD j "") else none)
        = (List.range t.names.length).filterMap (fun j => some (t.names.getD j "")) := by
      apply List.filterMap_congr
      intro j hj
      rw [if_pos]
      intro x hx
      rw [hcells j] at hx
      cases hx
    rw [computeAllMissingColumns, hcongr]
    rw [show (fun j => some (t.names.getD j "")) = some ∘ (fun j => t.names.getD j "")
      from rfl]
    rw [List.filterMap_eq_map]
    exact range_map_getD t.names ""

/-- C3 witness: the amended statement applied to the zero-row table `T3`:
its full name list is returned. -/
theorem computeAllMissingColumns_mem_instance :
    computeAllMissingColumns T3 = T3.names :=
  (computeAllMissingColumns_mem T3).2 rfl

/-- C3 counterexample: the zero-row one-column table `T3` refutes the claim
as stated — the claim demands the empty set when the row count is 0, but the
code includes the column name by vacuous truth of `isnull().all()`. -/
theorem computeAllMissingColumns_zero_rows_cex :
    T3.rows.length = 0 ∧ computeAllMissingColumns T3 = ["a"] := by
  exact ⟨rfl, by decide⟩

lemma count_true_add_count_false (l : List Bool) :
    l.count true + l.count false = l.length := by
  induction l with
  | nil => rfl
  | cons b t ih => cases b <;> simp [List.count_cons] <;> omega

lemma dupFlags_length (seen : List (List Cell)) (l : List (List Cell)) :
    (dupFlags seen l).length = l.length := by
  induction l generalizing seen with
  | nil => rfl
  | cons r rs ih => simp [dupFlags, ih]

lemma dupFlags_count_false (seen : List (List Cell)) (l : List (List Cell)) :
    (dupFlags seen l).count false = (l.toFinset \ seen.toFinset).card := by
  induction l generalizing seen with
  | nil => simp [dupFlags]
  | cons r rs ih =>
    by_cases hr : r ∈ seen
    · have hmem : r ∈ seen.toFinset := List.mem_toFinset.2 hr
      simp [dupFlags, hr, List.count_cons, ih (r :: seen), List.toFinset_cons,
        Finset.insert_eq_self.2 hmem, Finset.insert_sdiff_of_mem _ hmem]
    · have hmem : r ∉ seen.toFinset := fun h => hr (List.mem_toFinset.1 h)
      have key : (insert r rs.toFinset \ seen.toFinset).card
          = (rs.toFinset \ insert r seen.toFinset).card + 1 := by
        rw [Finset.insert_sdiff_of_not_mem _ hmem, Finset.sdiff_insert]
        by_cases hra : r ∈ rs.toFinset \ seen.toFinset
        · rw [Finset.insert_eq_self.2 hra, Finset.card_erase_add_one hra]
        · rw [Finset.card_insert_of_not_mem hra, Finset.erase_eq_of_not_mem hra]
      simp [dupFlags, hr, List.count_cons, ih (r :: seen), List.toFinset_cons, key]

lemma dupFlags_count_true (seen : List (List Cell)) (l : List (List Cell)) :
    (dupFlags seen l).count true = l.length - (l.toFinset \ seen.toFinset).card := by
  have h1 := count_true_add_count_false (dupFlags seen l)
  rw [dupFlags_count_false, dupFlags_length] at h1
  omega

/-- C6: the duplicate report — the duplicated-row count equals the total row
count minus the number of distinct row values (rows compare by full-row
equality, missing equal to missing, since `Cell` equality is plain decidable
equality); the preview keeps exactly the rows whose value occurs at least
twice, as a sublist of the rows (hence in original order); and on the
scenario table the count is 1 and the preview holds both [1, x] rows. -/
theorem computeDuplicateReport_spec :
    (∀ t : Table, duplicateCount t = t.rows.length - t.rows.dedup.length) ∧
    (∀ t : Table, (duplicatesPreview t).Sublist t.rows) ∧
    (∀ (t : Table) (r : List Cell),
      r ∈ duplicatesPreview t ↔ r ∈ t.rows ∧ 2 ≤ t.rows.count r) ∧
    (duplicateCount T6 = 1 ∧
      duplicatesPreview T6 = [[Cell.num 1, Cell.str "x"], [Cell.num 1, Cell.str "x"]]) := by
  refine ⟨?_, ?_, ?_, by decide, by decide⟩
  · intro t
    rw [duplicateCount, dupFlags_count_true]
    simp [List.toFinset_nil, Finset.sdiff_empty, List.card_toFinset]
  · intro t
    exact List.filter_sublist t.rows
  · intro t r
    rw [duplicatesPreview, List.mem_filter]
    simp

lemma dropDupFirst_sublist (seen : List (List Cell)) (l : List (List Cell)) :
    (dropDupFirst seen l).Sublist l := by
  induction l generalizing seen with
  | nil => exact List.Sublist.refl _
  | cons r rs ih =>
    rw [dropDupFirst]
    by_cases hr : r ∈ seen
    · rw [if_pos hr]
      exact (ih seen).trans (List.sublist_cons_self r rs)
    · rw [if_neg hr]
      exact (ih (r :: seen)).cons₂ r

lemma mem_dropDupFirst_not_seen (seen : List (List Cell)) (l : List (List Cell))
    (x : List Cell) (hx : x ∈ dropDupFirst seen l) : x ∉ seen := by
  induction l generalizing seen with
  | nil => cases hx
  | cons r rs ih =>
    rw [dropDupFirst] at hx
    by_cases hr : r ∈ seen
    · rw [if_pos hr] at hx
      exact ih seen hx
    · rw [if_neg hr] at hx
      rcases List.mem_cons.1 hx with hxr | hxs
      · exact hxr ▸ hr
      · intro hs
        exact ih (r :: seen) hxs (List.mem_cons_of_mem r hs)

lemma dropDupFirst_nodup (seen : List (List Cell)) (l : List (List Cell)) :
    (dropDupFirst seen l).Nodup := by
  induction l generalizing seen with
  | nil => exact List.nodup_nil
  | cons r rs ih =>
    rw [dropDupFirst]
    by_cases hr : r ∈ seen
    · rw [if_pos hr]
      exact ih seen
    · rw [if_neg hr]
      refine List.Nodup.cons ?_ (ih (r :: seen))
      intro hmem
      exact mem_dropDupFirst_not_seen _ _ _ hmem (List.mem_cons_self r seen)

lemma dropDupFirst_eq_self (seen : List (List Cell)) (l : List (List Cell))
    (hnd : l.Nodup) (hdisj : ∀ x ∈ l, x ∉ seen) : dropDupFirst seen l = l := by
  induction l generalizing seen with
  | nil => rfl
  | cons r rs ih =>
    rw [dropDupFirst, if_neg (hdisj r (List.mem_cons_self r rs))]
    congr 1
    apply ih (r :: seen) (List.Nodup.of_cons hnd)
    intro x hx hmem
    rcases List.mem_cons.1 hmem with hxr | hxs
    · exact (List.nodup_cons.1 hnd).1 (hxr ▸ hx)
    · exact hdisj x (List.mem_cons_of_mem r hx) hxs

/-- C8: removing duplicate rows twice equals removing them once — the first
pass leaves a duplicate-free row list, which the second pass keeps whole. -/
theorem dropDuplicateRows_idempotent (t : Table) :
    dropDuplicateRows (dropDuplicateRows t) = dropDuplicateRows t := by
  show ({ t with rows := dropDupFirst [] (dropDupFirst [] t.rows) } : Table) = _
  congr 1
  exact dropDupFirst_eq_self _ _ (dropDupFirst_nodup [] t.rows)
    (fun x _ h => (List.not_mem_nil x) h)

/-- Modelled from the spec wording for dropDuplicateRows: retain only the
first occurrence of each distinct row, preserving original relative order —
keep each index whose row equals no row at a smaller index. -/
def specFirstOccurrences (rows : List (List Cell)) : List (List Cell) :=
  (List.range rows.length).filterMap (fun i =>
    if ∀ k, k < i → rows.getD k [] ≠ rows.getD i [] then some (rows.getD i [])
    else none)

/-- Selector used to characterize `dropDupFirst` positionally. -/
def keepCond (seen : List (List Cell)) (l : List (List Cell)) (i : ℕ) :
    Option (List Cell) :=
  if l.getD i [] ∉ seen ∧ (∀ k, k < i → l.getD k [] ≠ l.getD i []) then
    some (l.getD i [])
  else none

lemma forall_lt_succ_iff_zero {P : ℕ → Prop} (i : ℕ) :
    (∀ k, k < i + 1 → P k) ↔ P 0 ∧ ∀ k, k < i → P (k + 1) := by
  constructor
  · intro h
    exact ⟨h 0 (Nat.succ_pos i), fun k hk => h (k + 1) (Nat.succ_lt_succ hk)⟩
  · rintro ⟨h0, h⟩ k hk
    cases k with
    | zero => exact h0
    | succ k => exact h k (Nat.lt_of_succ_lt_succ hk)

lemma keepCond_zero (seen : List (List Cell)) (r : List Cell) (rs : List (List Cell)) :
    keepCond seen (r :: rs) 0 = if r ∈ seen then none else some r := by
  rw [keepCond]
  simp only [List.getD_cons_zero]
  by_cases hr : r ∈ seen
  · rw [if_pos hr, if_neg]
    rintro ⟨h1, _⟩
    exact h1 hr
  · rw [if_neg hr, if_pos ⟨hr, fun k hk => absurd hk (Nat.not_lt_zero k)⟩]

lemma keepCond_succ (seen : List (List Cell)) (r : List Cell)
    (rs : List (List Cell)) (i : ℕ) :
    keepCond seen (r :: rs) (i + 1) = keepCond (r :: seen) rs i := by
  rw [keepCond, keepCond]
  apply if_congr ?_ (by rw [List.getD_cons_succ]) rfl
  rw [List.getD_cons_succ, forall_lt_succ_iff_zero]
  simp only [List.getD_cons_zero, List.getD_cons_succ, List.mem_cons]
  constructor
  · rintro ⟨h1, h0, h⟩
    refine ⟨?_, h⟩
    rintro (he | hs)
    · exact h0 he.symm
    · exact h1 hs
  · rintro ⟨hm, h⟩
    exact ⟨fun hs => hm (Or.inr hs), fun he => hm (Or.inl he.symm), h⟩

lemma keepCond_succ_of_mem (seen : List (List Cell)) (r : List Cell)
    (rs : List (List Cell)) (i : ℕ) (hr : r ∈ seen) :
    keepCond seen (r :: rs) (i + 1) = keepCond seen rs i := by
  rw [keepCond_succ, keepCond, keepCond]
  apply if_congr ?_ rfl rfl
  simp only [List.mem_cons]
  constructor
  · rintro ⟨hm, h⟩
    exact ⟨fun hs => hm (Or.inr hs), h⟩
  · rintro ⟨h1, h⟩
    refine ⟨?_, h⟩
    rintro (he | hs)
    · exact h1 (he.symm ▸ hr)
    · exact h1 hs

lemma dropDupFirst_eq_filterMap (seen : List (List Cell)) (l : List (List Cell)) :
    dropDupFirst seen l = (List.range l.length).filterMap (keepCond seen l) := by
  induction l generalizing seen with
  | nil => rfl
  | cons r rs ih =>
    rw [List.length_cons, List.range_succ_eq_map]
    by_cases hr : r ∈ seen
    · rw [List.filterMap_cons_none (by rw [keepCond_zero, if_pos hr]),
        List.filterMap_map, dropDupFirst, if_pos hr, ih seen]
      apply List.filterMap_congr
      intro i hi
      exact (keepCond_succ_of_mem seen r rs i hr).symm
    · rw [List.filterMap_cons_some (by rw [keepCond_zero, if_neg hr]),
        List.filterMap_map, dropDupFirst, if_neg hr, ih (r :: seen)]
      congr 1
      apply List.filterMap_congr
      intro i hi
      exact (keepCond_succ seen r rs i).symm

lemma specFirstOccurrences_eq (l : List (List Cell)) :
    specFirstOccurrences l = (List.range l.length).filterMap (keepCond [] l) := by
  apply List.filterMap_congr
  intro i hi
  rw [keepCond]
  apply if_congr ?_ rfl rfl
  constructor
  · intro h
    exact ⟨List.not_mem_nil _, h⟩
  · rintro ⟨_, h⟩
    exact h

/-- C7: `drop_duplicates(keep=first)` retains exactly the first occurrence
of each distinct row (full-row decidable equality, so missing compares equal
to missing) in original relative order: the result equals the spec-side
first-occurrence selection, is a sublist of the input rows, and has no
duplicate row left; names and kinds are unchanged. -/
theorem dropDuplicateRows_first_occurrences (t : Table) :
    (dropDuplicateRows t).names = t.names ∧
    (dropDuplicateRows t).kinds = t.kinds ∧
    (dropDuplicateRows t).rows = specFirstOccurrences t.rows ∧
    (dropDuplicateRows t).rows.Sublist t.rows ∧
    (dropDuplicateRows t).rows.Nodup := by
  refine ⟨rfl, rfl, ?_, dropDupFirst_sublist [] t.rows, dropDupFirst_nodup [] t.rows⟩
  show dropDupFirst [] t.rows = _
  rw [dropDupFirst_eq_filterMap, specFirstOccurrences_eq]

lemma mem_computeMissingReport (t : Table) (e : ReportEntry) :
    e ∈ computeMissingReport t ↔ ∃ j, j < t.names.length ∧ 0 < missingCount t j ∧
      e = { column := t.names.getD j "", count := missingCount t j,
            pct := round2 ((missingCount t j : ℚ) / (t.rows.length : ℚ) * 100) } := by
  rw [computeMissingReport, List.mem_filterMap]
  constructor
  · rintro ⟨j, hj, hf⟩
    rw [List.mem_range] at hj
    by_cases hc : 0 < missingCount t j
    · rw [if_pos hc] at hf
      exact ⟨j, hj, hc, (Option.some.inj hf).symm⟩
    · rw [if_neg hc] at hf
      cases hf
  · rintro ⟨j, hj, hc, he⟩
    exact ⟨j, List.mem_range.2 hj, by rw [if_pos hc, he]⟩

lemma filterMap_ite_sublist {α : Type} (f : ℕ → α) (p : ℕ → Prop)
    [DecidablePred p] (l : List ℕ) :
    (l.filterMap (fun x => if p x then some (f x) else none)).Sublist (l.map f) := by
  induction l with
  | nil => simp
  | cons a l ih =>
    rw [List.map_cons]
    by_cases hp : p a
    · rw [List.filterMap_cons_some (by rw [if_pos hp])]
      exact ih.cons₂ (f a)
    · rw [List.filterMap_cons_none (by rw [if_neg hp])]
      exact ih.cons (f a)

/-- C4: the missing-value report has one entry per column with a positive
missing count and no other entry — entries carry distinct column names, a
column with a positive missing count contributes an entry named after it,
every entry carries its column's actual missing count and the percentage
count / rowCount × 100 rounded to two decimals — and for a zero-row table
the report is empty (every count is 0), so no NaN percentage is ever
exposed. -/
theorem computeMissingReport_spec (t : Table) (hnd : t.names.Nodup) :
    (∀ e ∈ computeMissingReport t, 0 < e.count) ∧
    ((computeMissingReport t).map ReportEntry.column).Nodup ∧
    (∀ j, j < t.names.length →
      (0 < missingCount t j ↔
        ∃ e ∈ computeMissingReport t, e.column = t.names.getD j "")) ∧
    (∀ e ∈ computeMissingReport t, ∃ j, j < t.names.length ∧
      e.column = t.names.getD j "" ∧ e.count = missingCount t j ∧
      e.pct = round2 ((missingCount t j : ℚ) / (t.rows.length : ℚ) * 100)) ∧
    (t.rows.length = 0 → computeMissingReport t = []) := by
  have getD_inj : ∀ {j k : ℕ}, j < t.names.length → k < t.names.length →
      t.names.getD j "" = t.names.getD k "" → j = k := by
    intro j k hj hk he
    rw [List.getD_eq_getElem _ _ hj, List.getD_eq_getElem _ _ hk] at he
    exact (List.Nodup.getElem_inj_iff hnd).1 he
  refine ⟨?_, ?_, ?_, ?_, ?_⟩
  · intro e he
    rcases (mem_computeMissingReport t e).1 he with ⟨j, hj, hc, rfl⟩
    exact hc
  · have hmap : (computeMissingReport t).map ReportEntry.column
        = (List.range t.names.length).filterMap (fun j =>
            if 0 < missingCount t j then some (t.names.getD j "") else none) := by
      rw [computeMissingReport, List.map_filterMap]
      apply List.filterMap_congr
      intro j hj
      by_cases hc : 0 < missingCount t j
      · rw [if_pos hc, if_pos hc]
        rfl
      · rw [if_neg hc, if_neg hc]
        rfl
    rw [hmap]
    have hsub := filterMap_ite_sublist (fun j => t.names.getD j "")
      (fun j => 0 < missingCount t j) (List.range t.names.length)
    rw [range_map_getD t.names ""] at hsub
    exact hnd.sublist hsub
  · intro j hj
    constructor
    · intro hc
      exact ⟨_, (mem_computeMissingReport t _).2 ⟨j, hj, hc, rfl⟩, rfl⟩
    · rintro ⟨e, he, hcol⟩
      rcases (mem_computeMissingReport t e).1 he with ⟨k, hk, hc, rfl⟩
      have : k = j := getD_inj hk hj hcol
      exact this ▸ hc
  · intro e he
    rcases (mem_computeMissingReport t e).1 he with ⟨j, hj, hc, rfl⟩
    exact ⟨j, hj, rfl, rfl, rfl⟩
  · intro hzero
    rw [List.length_eq_zero] at hzero
    have hcount : ∀ j, missingCount t j = 0 := by
      intro j
      simp [missingCount, colCells, hzero]
    rw [computeMissingReport, List.filterMap_eq_nil_iff]
    intro j hj
    rw [if_neg]
    rw [hcount j]
    exact lt_irrefl 0

/-- C4 witness: the report of the zero-row table `T3` is empty, by the
zero-row clause of the report specification. -/
theorem computeMissingReport_spec_instance : computeMissingReport T3 = [] :=
  (computeMissingReport_spec T3 (by decide)).2.2.2.2 rfl

end DataClean
